import Mathlib

/-!
Verification of the constrained (Lagrangian) PPO trainer
`align_anything/trainers/text_image_to_text/ppo_lag.py` and the preference
collator `align_anything/datasets/text_image_to_text/new_preference.py`.

Tensors are modelled row-wise as Lean lists over `ℚ` (one list per
trajectory); the batched torch operations in the source act independently on
each row, so each embedded function is the per-row computation.  Quantities
that the source obtains through `exp` on a trainable scalar are modelled
over `ℝ` with `Real.exp`.
-/

namespace AlignAnything

/-- Elementwise product of a rational tensor row with a boolean mask row,
as in `values = values * sequence_mask` (a `True` entry behaves as `1`,
a `False` entry as `0`). -/
def maskMul (xs : List ℚ) (mask : List Bool) : List ℚ :=
  List.zipWith (fun x (b : Bool) => x * (if b then 1 else 0)) xs mask

/-- The backward loop of `get_advantages_and_returns` (source lines
859-869): walking from the last position to the first, it carries
`last_gae_lambda` (the advantage of the following position, `0` past the
end) and computes
`delta = rewards[t] + gamma * next_values - values[t]` with
`next_values = values[t+1] if t < length - 1 else 0.0`, then
`advantage[t] = delta + gamma * gae_lambda * last_gae_lambda`.
The head of the recursive result is exactly the carried
`last_gae_lambda`. -/
def gaeLoop (gamma lam : ℚ) : List ℚ → List ℚ → List ℚ
  | v :: vs, r :: rs =>
      (r + gamma * (if rs.isEmpty then 0 else vs.headD 0) - v
        + gamma * lam * (gaeLoop gamma lam vs rs).headD 0) :: gaeLoop gamma lam vs rs
  | _, _ => []

/-- Embedding of `PPOTrainerLag.get_advantages_and_returns` (source lines
850-871): mask the value and reward rows, run the backward GAE loop for
positions `start, …, length - 1`, and return
`(advantages, advantages + values[start:])`.  The python loop over
`reversed(range(start, length))` produces the suffix of the full backward
recurrence starting at `start` (the recurrence is computed from the top
index down and does not depend on `start`). -/
def get_advantages_and_returns (gamma lam : ℚ) (values rewards : List ℚ)
    (sequence_mask : List Bool) (start : Nat) : List ℚ × List ℚ :=
  let mv := maskMul values sequence_mask
  let mr := maskMul rewards sequence_mask
  let advantages := (gaeLoop gamma lam mv mr).drop start
  (advantages, List.zipWith (· + ·) advantages (mv.drop start))

lemma headD_eq_getD (l : List ℚ) : l.headD 0 = l.getD 0 0 := by
  cases l <;> rfl

lemma length_gaeLoop (gamma lam : ℚ) :
    ∀ v r : List ℚ, (gaeLoop gamma lam v r).length = min v.length r.length := by
  intro v
  induction v with
  | nil => intro r; cases r <;> simp [gaeLoop]
  | cons a as ih =>
    intro r
    cases r with
    | nil => simp [gaeLoop]
    | cons b bs =>
      simp only [gaeLoop, List.length_cons, ih bs]
      omega

lemma getD_zipWith {α β : Type} (f : α → β → ℚ) (da : α) (db : β) :
    ∀ (a : List α) (b : List β) (t : Nat), t < a.length → t < b.length →
      (List.zipWith f a b).getD t 0 = f (a.getD t da) (b.getD t db) := by
  intro a
  induction a with
  | nil => intro b t ht _; simp at ht
  | cons x xs ih =>
    intro b t ht hb
    cases b with
    | nil => simp at hb
    | cons y ys =>
      cases t with
      | zero => simp
      | succ n =>
        simp only [List.zipWith_cons_cons, List.getD_cons_succ]
        exact ih ys n (by simpa using ht) (by simpa using hb)

lemma gaeLoop_getD (gamma lam : ℚ) :
    ∀ (v r : List ℚ), v.length = r.length → ∀ t, t < r.length →
      (gaeLoop gamma lam v r).getD t 0 =
        r.getD t 0 + gamma * v.getD (t + 1) 0 - v.getD t 0
          + gamma * lam * (gaeLoop gamma lam v r).getD (t + 1) 0 := by
  intro v
  induction v with
  | nil =>
    intro r h t ht
    cases r with
    | nil => simp at ht
    | cons b bs => simp at h
  | cons a as ih =>
    intro r h t ht
    cases r with
    | nil => simp at ht
    | cons b bs =>
      cases t with
      | zero =>
        cases bs with
        | nil =>
          cases as with
          | nil => simp [gaeLoop]
          | cons a2 as2 => simp at h
        | cons c cs =>
          cases as with
          | nil => simp at h
          | cons a2 as2 =>
            simp [gaeLoop, headD_eq_getD]
      | succ n =>
        have h' : as.length = bs.length := by simpa using h
        have hn : n < bs.length := by simpa using ht
        simpa [gaeLoop, List.getD_cons_succ] using ih bs h' n hn

/-- C1: `get_advantages_and_returns` implements the backward GAE
recurrence `delta_t = r_t + gamma * V_(t+1) * mask - V_t` (with the
out-of-range value taken as `0`), `A_t = delta_t + gamma * lambda * A_(t+1)`
(with the out-of-range advantage taken as `0`), and
`return_t = A_t + V_t`, all over the mask-multiplied streams; and for
`gamma = 9/10`, `gae_lambda = 19/20`, a single valid position with
`V = [0]` and `r = [1]`, it returns advantage `1` and return `1`. -/
theorem C1_gae_recurrence (gamma lam : ℚ) (values rewards : List ℚ)
    (mask : List Bool) (L : Nat)
    (hv : values.length = L) (hr : rewards.length = L) (hm : mask.length = L) :
    (∀ t, t < L →
      (get_advantages_and_returns gamma lam values rewards mask 0).1.getD t 0 =
          (maskMul rewards mask).getD t 0
            + gamma * (maskMul values mask).getD (t + 1) 0
            - (maskMul values mask).getD t 0
            + gamma * lam *
              (get_advantages_and_returns gamma lam values rewards mask 0).1.getD (t + 1) 0
        ∧ (get_advantages_and_returns gamma lam values rewards mask 0).2.getD t 0 =
          (get_advantages_and_returns gamma lam values rewards mask 0).1.getD t 0
            + (maskMul values mask).getD t 0)
    ∧ get_advantages_and_returns (9/10) (19/20) [0] [1] [true] 0 = ([1], [1]) := by
  have hmv : (maskMul values mask).length = L := by
    simp [maskMul, hv, hm]
  have hmr : (maskMul rewards mask).length = L := by
    simp [maskMul, hr, hm]
  have hadv : (get_advantages_and_returns gamma lam values rewards mask 0).1 =
      gaeLoop gamma lam (maskMul values mask) (maskMul rewards mask) := by
    simp [get_advantages_and_returns]
  have hlen : (gaeLoop gamma lam (maskMul values mask) (maskMul rewards mask)).length = L := by
    rw [length_gaeLoop, hmv, hmr, min_self]
  constructor
  · intro t ht
    constructor
    · rw [hadv]
      exact gaeLoop_getD gamma lam (maskMul values mask) (maskMul rewards mask)
        (hmv.trans hmr.symm) t (by omega)
    · have hret : (get_advantages_and_returns gamma lam values rewards mask 0).2 =
          List.zipWith (· + ·)
            (gaeLoop gamma lam (maskMul values mask) (maskMul rewards mask))
            (maskMul values mask) := by
        simp [get_advantages_and_returns]
      rw [hret, hadv]
      exact getD_zipWith (· + ·) 0 0 _ _ t (by omega) (by omega)
  · norm_num [get_advantages_and_returns, gaeLoop, maskMul]

/-- Concrete instantiation of `C1_gae_recurrence`. -/
theorem C1_gae_recurrence_witness :
    get_advantages_and_returns (9/10) (19/20) [0] [1] [true] 0 = ([1], [1]) :=
  (C1_gae_recurrence (9/10) (19/20) [0] [1] [true] 1 rfl rfl rfl).2

/-- Index of the last `true` entry of a boolean mask row, i.e. the value of
`m.nonzero()[-1]` in `add_kl_divergence_regularization_with_cost` (source
line 547).  On an all-`False` row the torch expression raises an
`IndexError` (indexing an empty tensor), modelled here as `none`. -/
def end_index_row : List Bool → Option Nat
  | [] => none
  | b :: bs =>
    match end_index_row bs with
    | some e => some (e + 1)
    | none => if b then some 0 else none

/-- One row of `torch.scatter_add` with a single index per row: add `src`
to the entry at position `idx` (source lines 553-565 use it to add the
scalar episode reward/cost at the last valid position). -/
def scatter_add_row : List ℚ → Nat → ℚ → List ℚ
  | [], _, _ => []
  | x :: xs, 0, s => (x + s) :: xs
  | x :: xs, n + 1, s => x :: scatter_add_row xs n s

/-- Elementwise `torch.clamp(x, min=-clip_range_score, max=clip_range_score)`
(source lines 567-568). -/
def clampQ (clip x : ℚ) : ℚ := min (max x (-clip)) clip

/-- Sum of a rational row restricted to the positions where the boolean
mask row is `true` (the "sum over valid positions" of the spec). -/
def maskedSum (xs : List ℚ) (mask : List Bool) : ℚ :=
  (List.zipWith (fun x (b : Bool) => if b then x else 0) xs mask).sum

/-- Embedding of one row of
`PPOTrainerLag.add_kl_divergence_regularization_with_cost` (source lines
539-569): per-token KL estimate `log_probs - ref_log_probs`, reward stream
`-kl_coeff * KL` with the scalar reward scatter-added at the last valid
index, cost stream `+kl_coeff * KL` (the negated penalty stream) with the
scalar cost scatter-added at the same index, both clamped elementwise to
`[-clip_range_score, clip_range_score]` after the scatter.  `none` models
the `IndexError` raised by `m.nonzero()[-1]` on an all-`False` mask row. -/
def add_kl_divergence_regularization_with_cost (kl_coeff clip_range_score reward cost : ℚ)
    (log_probs ref_log_probs : List ℚ) (sequence_mask : List Bool) :
    Option (List ℚ × List ℚ) :=
  match end_index_row sequence_mask with
  | none => none
  | some end_index =>
    let kl_divergence_estimate := List.zipWith (· - ·) log_probs ref_log_probs
    let kl_penalty_rewards := kl_divergence_estimate.map (fun x => -kl_coeff * x)
    some
      ((scatter_add_row kl_penalty_rewards end_index reward).map (clampQ clip_range_score),
       (scatter_add_row (kl_penalty_rewards.map (fun x => -x)) end_index cost).map
         (clampQ clip_range_score))

lemma end_index_row_isSome {m : List Bool} (h : true ∈ m) :
    (end_index_row m).isSome = true := by
  induction m with
  | nil => simp at h
  | cons b bs ih =>
    rcases List.mem_cons.mp h with hb | hb
    · cases hrec : end_index_row bs with
      | some e => simp [end_index_row, hrec]
      | none => simp [end_index_row, hrec, ← hb]
    · have := ih hb
      cases hrec : end_index_row bs with
      | some e => simp [end_index_row, hrec]
      | none => simp [hrec] at this

lemma end_index_row_none_getD {m : List Bool} (h : end_index_row m = none) :
    ∀ j, m.getD j false = false := by
  induction m with
  | nil => intro j; simp
  | cons b bs ih =>
    intro j
    have hbs : end_index_row bs = none := by
      cases hrec : end_index_row bs with
      | some e => simp [end_index_row, hrec] at h
      | none => rfl
    have hb : b = false := by
      by_contra hb
      simp [end_index_row, hbs] at h
      exact hb h
    cases j with
    | zero => simpa using hb
    | succ n => simpa using ih hbs n

lemma end_index_row_some {m : List Bool} {e : Nat} (h : end_index_row m = some e) :
    e < m.length ∧ m.getD e false = true ∧ ∀ j, e < j → m.getD j false = false := by
  induction m generalizing e with
  | nil => simp [end_index_row] at h
  | cons b bs ih =>
    cases hrec : end_index_row bs with
    | some e2 =>
      have he : e = e2 + 1 := by
        simp [end_index_row, hrec] at h
        omega
      subst he
      obtain ⟨h1, h2, h3⟩ := ih hrec
      refine ⟨by simpa using h1, by simpa using h2, ?_⟩
      intro j hj
      cases j with
      | zero => omega
      | succ n => simpa using h3 n (by omega)
    | none =>
      have hb : b = true ∧ e = 0 := by
        by_cases hbb : b = true <;> simp [end_index_row, hrec, hbb] at h <;> simp [hbb, h.symm]
      obtain ⟨hb, he⟩ := hb
      subst he
      refine ⟨by simp, by simpa using hb, ?_⟩
      intro j hj
      cases j with
      | zero => omega
      | succ n => simpa using end_index_row_none_getD hrec n

lemma length_scatter_add_row : ∀ (xs : List ℚ) (idx : Nat) (s : ℚ),
    (scatter_add_row xs idx s).length = xs.length := by
  intro xs
  induction xs with
  | nil => intro idx s; rfl
  | cons x xs ih =>
    intro idx s
    cases idx with
    | zero => rfl
    | succ n => simpa [scatter_add_row] using ih n s

lemma scatter_add_row_getD : ∀ (xs : List ℚ) (idx : Nat) (s : ℚ) (t : Nat), t < xs.length →
    (scatter_add_row xs idx s).getD t 0 = xs.getD t 0 + if t = idx then s else 0 := by
  intro xs
  induction xs with
  | nil => intro idx s t ht; simp at ht
  | cons x xs ih =>
    intro idx s t ht
    cases idx with
    | zero =>
      cases t with
      | zero => simp [scatter_add_row]
      | succ n => simp [scatter_add_row]
    | succ m =>
      cases t with
      | zero => simp [scatter_add_row]
      | succ n =>
        have := ih m s n (by simpa using ht)
        simpa [scatter_add_row, Nat.succ_inj] using this

lemma getD_map (f : ℚ → ℚ) : ∀ (l : List ℚ) (t : Nat), t < l.length →
    (l.map f).getD t 0 = f (l.getD t 0) := by
  intro l
  induction l with
  | nil => intro t ht; simp at ht
  | cons x xs ih =>
    intro t ht
    cases t with
    | zero => simp
    | succ n => simpa using ih n (by simpa using ht)

lemma maskedSum_scatter : ∀ (xs : List ℚ) (mask : List Bool) (idx : Nat) (s : ℚ),
    xs.length = mask.length → idx < xs.length → mask.getD idx false = true →
    maskedSum (scatter_add_row xs idx s) mask = maskedSum xs mask + s := by
  intro xs
  induction xs with
  | nil => intro mask idx s _ hidx _; simp at hidx
  | cons x xs ih =>
    intro mask idx s hlen hidx hmask
    cases mask with
    | nil => simp at hlen
    | cons b bs =>
      cases idx with
      | zero =>
        have hb : b = true := by simpa using hmask
        subst hb
        simp [scatter_add_row, maskedSum]
        ring
      | succ n =>
        have := ih bs n s (by simpa using hlen) (by simpa using hidx) (by simpa using hmask)
        simp [scatter_add_row, maskedSum] at this ⊢
        rw [this]
        ring

lemma maskedSum_map_mul (k : ℚ) : ∀ (xs : List ℚ) (mask : List Bool),
    maskedSum (xs.map (fun x => k * x)) mask = k * maskedSum xs mask := by
  intro xs
  induction xs with
  | nil => intro mask; simp [maskedSum]
  | cons x xs ih =>
    intro mask
    cases mask with
    | nil => simp [maskedSum]
    | cons b bs =>
      simp [maskedSum] at ih ⊢
      rw [ih bs]
      cases b <;> simp <;> ring

/-- C3: on a mask row with at least one valid position, the KL-shaped
reward stream is `-kl_coeff * (log_probs - ref_log_probs)` per token with
the scalar reward added additively exactly once at the last valid index
`e`, the cost stream is `+kl_coeff * (log_probs - ref_log_probs)` with the
scalar cost added at the same index, both streams are clamped elementwise
to `[-clip_range_score, clip_range_score]` after the scatter, and the
pre-clamp reward stream sums over valid positions to
`reward - kl_coeff * (sum of KL over valid positions)`. -/
theorem C3_kl_shaping (k clip reward cost : ℚ) (lp rp : List ℚ) (mask : List Bool) (L : Nat)
    (hlp : lp.length = L) (hrp : rp.length = L) (hm : mask.length = L)
    (hvalid : true ∈ mask) :
    (end_index_row mask).isSome = true ∧
    ∀ e, end_index_row mask = some e →
      e < L ∧ mask.getD e false = true ∧ (∀ j, e < j → mask.getD j false = false) ∧
      add_kl_divergence_regularization_with_cost k clip reward cost lp rp mask =
        some
          ((scatter_add_row ((List.zipWith (· - ·) lp rp).map (fun x => -k * x)) e
              reward).map (clampQ clip),
           (scatter_add_row (((List.zipWith (· - ·) lp rp).map (fun x => -k * x)).map
              (fun x => -x)) e cost).map (clampQ clip)) ∧
      (∀ i, i < L →
        ((scatter_add_row ((List.zipWith (· - ·) lp rp).map (fun x => -k * x)) e
            reward).map (clampQ clip)).getD i 0 =
          clampQ clip (-k * (lp.getD i 0 - rp.getD i 0) + if i = e then reward else 0) ∧
        ((scatter_add_row (((List.zipWith (· - ·) lp rp).map (fun x => -k * x)).map
            (fun x => -x)) e cost).map (clampQ clip)).getD i 0 =
          clampQ clip (k * (lp.getD i 0 - rp.getD i 0) + if i = e then cost else 0)) ∧
      maskedSum (scatter_add_row ((List.zipWith (· - ·) lp rp).map (fun x => -k * x)) e
          reward) mask =
        reward - k * maskedSum (List.zipWith (· - ·) lp rp) mask := by
  have hkl : (List.zipWith (· - ·) lp rp).length = L := by
    simp [hlp, hrp]
  refine ⟨end_index_row_isSome hvalid, ?_⟩
  intro e he
  obtain ⟨heL, hetrue, hafter⟩ := end_index_row_some he
  rw [hm] at heL
  have hkp : ((List.zipWith (· - ·) lp rp).map (fun x => -k * x)).length = L := by
    simp [hkl]
  refine ⟨heL, hetrue, hafter, ?_, ?_, ?_⟩
  · simp only [add_kl_divergence_regularization_with_cost, he]
  · intro i hi
    constructor
    · rw [getD_map _ _ i (by rw [length_scatter_add_row]; omega),
        scatter_add_row_getD _ _ _ i (by omega),
        getD_map _ _ i (by omega),
        getD_zipWith (· - ·) 0 0 lp rp i (by omega) (by omega)]
    · rw [getD_map _ _ i (by rw [length_scatter_add_row, List.length_map]; omega),
        scatter_add_row_getD _ _ _ i (by rw [List.length_map]; omega),
        getD_map _ _ i (by omega),
        getD_map _ _ i (by omega),
        getD_zipWith (· - ·) 0 0 lp rp i (by omega) (by omega)]
      ring_nf
  · rw [maskedSum_scatter _ _ _ _ (by omega) (by omega) hetrue,
      maskedSum_map_mul (-k)]
    ring

/-- Concrete instantiation of `C3_kl_shaping`: two valid positions, KL
equal to `1` at both, `kl_coeff = 1`, reward `2` added at the last index. -/
theorem C3_kl_shaping_witness :
    (end_index_row [true, true]).isSome = true ∧
    maskedSum (scatter_add_row ((List.zipWith (· - ·) [1, 1] [0, 0]).map
        (fun x => -(1 : ℚ) * x)) 1 2) [true, true] =
      2 - 1 * maskedSum (List.zipWith (· - ·) [1, 1] [0, 0]) [true, true] := by
  have h := C3_kl_shaping 1 100 2 3 [1, 1] [0, 0] [true, true] 2 rfl rfl rfl
    (by simp)
  exact ⟨h.1, (h.2 1 rfl).2.2.2.2.2⟩

/-- The truncation length of `rl_step` (source line 606):
`new_size = min(sequence_mask.size(-1), old_reward_values.size(-1),
old_cost_values.size(-1))`. -/
def rl_new_size (mask_len reward_values_len cost_values_len : Nat) : Nat :=
  min mask_len (min reward_values_len cost_values_len)

/-- One row of the sequence mask built by `rl_step` (source lines 604-608):
`sequence_mask = torch.ones_like(response_mask, dtype=torch.bool)` then
`sequence_mask = sequence_mask[:, :new_size]`. -/
def rl_sequence_mask (response_mask : List Bool) (reward_values_len cost_values_len : Nat) :
    List Bool :=
  (response_mask.map (fun _ => true)).take
    (rl_new_size response_mask.length reward_values_len cost_values_len)

lemma end_index_row_replicate_true : ∀ n : Nat, end_index_row (List.replicate (n + 1) true) = some n := by
  intro n
  induction n with
  | zero => rfl
  | succ m ih =>
    have hstep : end_index_row (List.replicate (m + 2) true) =
        match end_index_row (List.replicate (m + 1) true) with
        | some e => some (e + 1)
        | none => some 0 := rfl
    rw [show m + 1 + 1 = m + 2 from rfl, hstep, ih]

/-- C6: the mask that `rl_step` passes to KL shaping and to both GAE
computations is an all-`true` row of length `new_size` (independent of the
contents of `response_mask`, only its length matters), so the
last-valid-token index computed from it is the fixed final index
`new_size - 1` for every trajectory in the batch. -/
theorem C6_rl_step_mask (response_mask : List Bool) (reward_values_len cost_values_len : Nat) :
    rl_sequence_mask response_mask reward_values_len cost_values_len =
      List.replicate (rl_new_size response_mask.length reward_values_len cost_values_len) true ∧
    (0 < rl_new_size response_mask.length reward_values_len cost_values_len →
      end_index_row (rl_sequence_mask response_mask reward_values_len cost_values_len) =
        some (rl_new_size response_mask.length reward_values_len cost_values_len - 1)) := by
  have hle : rl_new_size response_mask.length reward_values_len cost_values_len ≤
      response_mask.length := min_le_left _ _
  have hmask : rl_sequence_mask response_mask reward_values_len cost_values_len =
      List.replicate (rl_new_size response_mask.length reward_values_len cost_values_len)
        true := by
    rw [rl_sequence_mask, List.map_const']
    rw [List.take_replicate]
    congr 1
    omega
  refine ⟨hmask, ?_⟩
  intro hpos
  rw [hmask]
  obtain ⟨m, hmn⟩ : ∃ m, rl_new_size response_mask.length reward_values_len cost_values_len =
      m + 1 := ⟨_ , (Nat.succ_pred_eq_of_pos hpos).symm⟩
  rw [hmn]
  simpa using end_index_row_replicate_true m

/-- Concrete instantiation of `C6_rl_step_mask`: the mask content
`[false, true, false]` is irrelevant; with value rows of length 2 and 5
the truncated all-ones mask has last valid index `1`. -/
theorem C6_rl_step_mask_witness :
    end_index_row (rl_sequence_mask [false, true, false] 2 5) = some 1 :=
  (C6_rl_step_mask [false, true, false] 2 5).2 (by decide)

lemma headD_zero {l : List ℚ} (h : ∀ x ∈ l, x = 0) : l.headD 0 = 0 := by
  cases l with
  | nil => rfl
  | cons x xs => exact h x (List.mem_cons_self x xs)

lemma gaeLoop_zero (gamma lam : ℚ) : ∀ (v r : List ℚ),
    (∀ x ∈ v, x = 0) → (∀ x ∈ r, x = 0) → ∀ a ∈ gaeLoop gamma lam v r, a = 0 := by
  intro v
  induction v with
  | nil => intro r _ _ a ha; cases r <;> simp [gaeLoop] at ha
  | cons x xs ih =>
    intro r hv hr a ha
    cases r with
    | nil => simp [gaeLoop] at ha
    | cons y ys =>
      have hxs : ∀ z ∈ xs, z = 0 := fun z hz => hv z (List.mem_cons_of_mem x hz)
      have hys : ∀ z ∈ ys, z = 0 := fun z hz => hr z (List.mem_cons_of_mem y hz)
      have hrest := ih ys hxs hys
      rcases List.mem_cons.mp ha with hhead | htail
      · have hx : x = 0 := hv x (List.mem_cons_self x xs)
        have hy : y = 0 := hr y (List.mem_cons_self y ys)
        have h1 : (if ys.isEmpty = true then (0 : ℚ) else xs.headD 0) = 0 := by
          by_cases hys2 : ys.isEmpty
          · rw [if_pos hys2]
          · rw [if_neg hys2]
            exact headD_zero hxs
        have h2 : (gaeLoop gamma lam xs ys).headD 0 = 0 := headD_zero hrest
        rw [hhead, h1, h2, hx, hy]
        ring
      · exact hrest a htail

lemma maskMul_all_false {mask : List Bool} (hmask : ∀ b ∈ mask, b = false) :
    ∀ (xs : List ℚ), ∀ x ∈ maskMul xs mask, x = 0 := by
  induction mask with
  | nil => intro xs x hx; cases xs <;> simp [maskMul] at hx
  | cons b bs ih =>
    intro xs x hx
    cases xs with
    | nil => simp [maskMul] at hx
    | cons y ys =>
      have hb : b = false := hmask b (List.mem_cons_self b bs)
      have hbs : ∀ c ∈ bs, c = false := fun c hc => hmask c (List.mem_cons_of_mem b hc)
      rcases List.mem_cons.mp hx with hhead | htail
      · rw [hhead, hb]; simp
      · exact ih hbs ys x htail

lemma zipWith_add_zero : ∀ (a b : List ℚ),
    (∀ x ∈ a, x = 0) → (∀ x ∈ b, x = 0) → ∀ x ∈ List.zipWith (· + ·) a b, x = 0 := by
  intro a
  induction a with
  | nil => intro b _ _ x hx; simp at hx
  | cons y ys ih =>
    intro b ha hb x hx
    cases b with
    | nil => simp at hx
    | cons z zs =>
      rcases List.mem_cons.mp hx with hhead | htail
      · rw [hhead, ha y (List.mem_cons_self y ys), hb z (List.mem_cons_self z zs)]
        ring
      · exact ih zs (fun w hw => ha w (List.mem_cons_of_mem y hw))
          (fun w hw => hb w (List.mem_cons_of_mem z hw)) x htail

lemma end_index_row_all_false {mask : List Bool} (hmask : ∀ b ∈ mask, b = false) :
    end_index_row mask = none := by
  induction mask with
  | nil => rfl
  | cons b bs ih =>
    have hb : b = false := hmask b (List.mem_cons_self b bs)
    have hbs := ih (fun c hc => hmask c (List.mem_cons_of_mem b hc))
    simp [end_index_row, hbs, hb]

/-- C7 (amended): for an all-false mask row the GAE estimator does produce
all-zero advantages and returns, but the pipeline is not failure-free: the
KL-shaping step's last-valid-index lookup (`m.nonzero()[-1]`) finds no
index on an all-false row (an `IndexError`, modelled as `none`), so KL
shaping fails before advantage estimation is reached. -/
theorem C7_all_false_mask (gamma lam k clip reward cost : ℚ)
    (values rewards lp rp : List ℚ) (mask : List Bool) (start : Nat)
    (hmask : ∀ b ∈ mask, b = false) :
    (∀ x ∈ (get_advantages_and_returns gamma lam values rewards mask start).1, x = 0) ∧
    (∀ x ∈ (get_advantages_and_returns gamma lam values rewards mask start).2, x = 0) ∧
    end_index_row mask = none ∧
    add_kl_divergence_regularization_with_cost k clip reward cost lp rp mask = none := by
  have hv := maskMul_all_false hmask values
  have hr := maskMul_all_false hmask rewards
  have hadv := gaeLoop_zero gamma lam _ _ hv hr
  have hnone := end_index_row_all_false hmask
  refine ⟨?_, ?_, hnone, ?_⟩
  · intro x hx
    exact hadv x (List.mem_of_mem_drop hx)
  · intro x hx
    have hx2 : x ∈ List.zipWith (· + ·)
        ((gaeLoop gamma lam (maskMul values mask) (maskMul rewards mask)).drop start)
        ((maskMul values mask).drop start) := hx
    exact zipWith_add_zero _ _ (fun w hw => hadv w (List.mem_of_mem_drop hw))
      (fun w hw => hv w (List.mem_of_mem_drop hw)) x hx2
  · simp [add_kl_divergence_regularization_with_cost, hnone]

/-- Counterexample to C7 as stated: on a trajectory whose mask is
all-false the KL-shaping step of the pipeline fails (the last-valid-index
lookup raises, modelled as `none`) rather than being handled locally
without failure. -/
theorem C7_counterexample :
    add_kl_divergence_regularization_with_cost 1 5 1 1 [1, 2] [0, 0] [false, false] = none :=
  rfl

/-- Concrete instantiation of `C7_all_false_mask`. -/
theorem C7_all_false_mask_witness :
    end_index_row [false, false] = none ∧
    add_kl_divergence_regularization_with_cost 2 5 3 4 [1, 2] [0, 0] [false, false] = none := by
  have h := C7_all_false_mask 1 1 2 5 3 4 [1] [1] [1, 2] [0, 0] [false, false] 0 (by decide)
  exact ⟨h.2.2.1, h.2.2.2⟩

/-- The bound of `lambda_loss = torch.clamp(lambda_loss, min=-1e6, max=1e6)`
(source line 584). -/
def loss_clamp_bound : ℝ := 1000000

/-- The dual-ascent loss before clamping (source line 582):
`lambda_loss = -(episode_cost - self.threshold) * self.log_lambda.exp()`. -/
noncomputable def lambda_loss_raw (threshold log_lambda episode_cost : ℝ) : ℝ :=
  -(episode_cost - threshold) * Real.exp log_lambda

/-- Derivative of the clamped dual loss with respect to `log_lambda`.
`torch.clamp` back-propagates the incoming gradient only where its input
lies inside `[min, max]` and zeroes it outside, and
`d/dx (-(c - threshold) * exp x) = -(c - threshold) * exp x`. -/
noncomputable def clamped_loss_grad (threshold log_lambda episode_cost : ℝ) : ℝ :=
  if -loss_clamp_bound ≤ lambda_loss_raw threshold log_lambda episode_cost ∧
      lambda_loss_raw threshold log_lambda episode_cost ≤ loss_clamp_bound then
    -(episode_cost - threshold) * Real.exp log_lambda
  else 0

/-- One Lagrange controller update of `log_lambda` (source lines 579-587),
before the optional clamp to `log_lambda_max`: a single step of
`torch.optim.SGD` (no momentum, no weight decay), i.e.
`log_lambda ← log_lambda - lambda_lr * grad`. -/
noncomputable def lagrange_step (lambda_lr threshold log_lambda episode_cost : ℝ) : ℝ :=
  log_lambda - lambda_lr * clamped_loss_grad threshold log_lambda episode_cost

/-- The optional post-step clamp (source lines 588-590):
`self.log_lambda.clamp_(max=self.log_lambda_max)`. -/
noncomputable def lagrange_step_clamped (log_lambda_max lambda_lr threshold log_lambda
    episode_cost : ℝ) : ℝ :=
  min (lagrange_step lambda_lr threshold log_lambda episode_cost) log_lambda_max

/-- C2 (amended): with a positive learning rate, one Lagrange controller
step strictly increases `log_lambda` when the mean episode cost strictly
exceeds the threshold and strictly decreases it when the mean cost is
strictly below the threshold, provided the dual loss lies within the
`[-1e6, 1e6]` clamp window; outside that window the clamp zeroes the
gradient and `log_lambda` is unchanged (see the counterexample). -/
theorem C2_lagrange_monotonicity (lambda_lr threshold log_lambda episode_cost : ℝ)
    (hlr : 0 < lambda_lr)
    (hclamp : -loss_clamp_bound ≤ lambda_loss_raw threshold log_lambda episode_cost ∧
      lambda_loss_raw threshold log_lambda episode_cost ≤ loss_clamp_bound) :
    (threshold < episode_cost →
      log_lambda < lagrange_step lambda_lr threshold log_lambda episode_cost) ∧
    (episode_cost < threshold →
      lagrange_step lambda_lr threshold log_lambda episode_cost < log_lambda) := by
  have hgrad : clamped_loss_grad threshold log_lambda episode_cost =
      -(episode_cost - threshold) * Real.exp log_lambda := if_pos hclamp
  constructor
  · intro h
    rw [lagrange_step, hgrad]
    nlinarith [mul_pos hlr (mul_pos (sub_pos.mpr h) (Real.exp_pos log_lambda))]
  · intro h
    rw [lagrange_step, hgrad]
    nlinarith [mul_pos hlr (mul_pos (sub_pos.mpr h) (Real.exp_pos log_lambda))]

/-- Counterexample to C2 as stated: a large constraint violation saturates
the dual-loss clamp, the clamp zeroes the gradient, and `log_lambda` does
not move even though the mean cost strictly exceeds the threshold and the
learning rate is nonzero. -/
theorem C2_counterexample :
    (0 : ℝ) < 2000000 ∧ (1 / 10 : ℝ) ≠ 0 ∧
    lagrange_step (1 / 10) 0 0 2000000 = 0 := by
  refine ⟨by norm_num, by norm_num, ?_⟩
  have hraw : lambda_loss_raw 0 0 2000000 = -2000000 := by
    rw [lambda_loss_raw, Real.exp_zero]
    ring
  have hcond : ¬(-loss_clamp_bound ≤ lambda_loss_raw 0 0 2000000 ∧
      lambda_loss_raw 0 0 2000000 ≤ loss_clamp_bound) := by
    rw [hraw]
    simp only [loss_clamp_bound]
    intro hcon
    have := hcon.1
    norm_num at this
  have hgrad : clamped_loss_grad 0 0 2000000 = 0 := by
    rw [clamped_loss_grad, if_neg hcond]
  rw [lagrange_step, hgrad]
  ring

/-- Concrete instantiation of `C2_lagrange_monotonicity`: cost `1` above
threshold `0`, learning rate `1/10`, dual loss `-1` inside the clamp
window, so `log_lambda` strictly increases from `0`. -/
theorem C2_lagrange_monotonicity_witness :
    (0 : ℝ) < lagrange_step (1 / 10) 0 0 1 := by
  have hraw : lambda_loss_raw 0 0 1 = -1 := by
    rw [lambda_loss_raw, Real.exp_zero]
    ring
  have hclamp : -loss_clamp_bound ≤ lambda_loss_raw 0 0 1 ∧
      lambda_loss_raw 0 0 1 ≤ loss_clamp_bound := by
    rw [hraw]
    simp only [loss_clamp_bound]
    norm_num
  exact (C2_lagrange_monotonicity (1 / 10) 0 0 1 (by norm_num) hclamp).1 (by norm_num)

/-- The multiplier used by the policy updater (source line 528):
`multiplier = self.log_lambda.exp().item()`. -/
noncomputable def lag_multiplier (log_lambda : ℝ) : ℝ := Real.exp log_lambda

/-- The advantage blend of `actor_loss_fn_with_cost` (source line 529),
elementwise over the response positions:
`advantages = (reward_advantages - multiplier * cost_advantages) / (1.0 + multiplier)`. -/
noncomputable def blended_advantages (multiplier : ℝ)
    (reward_advantages cost_advantages : List ℝ) : List ℝ :=
  List.zipWith (fun ar ac => (ar - multiplier * ac) / (1 + multiplier))
    reward_advantages cost_advantages

lemma blended_advantages_zero : ∀ (a b : List ℝ), a.length = b.length →
    blended_advantages 0 a b = a := by
  intro a
  induction a with
  | nil => intro b _; rfl
  | cons x xs ih =>
    intro b h
    cases b with
    | nil => simp at h
    | cons y ys =>
      have h' : xs.length = ys.length := by simpa using h
      show ((x - 0 * y) / (1 + 0)) :: blended_advantages 0 xs ys = x :: xs
      rw [ih ys h']
      norm_num

/-- C4: the policy updater blends advantages as
`(A_reward - multiplier * A_cost) / (1 + multiplier)` with
`multiplier = exp(log_lambda)`, which is strictly positive for every
`log_lambda`; and with multiplier `0` the blended advantages are exactly
the reward advantages. -/
theorem C4_blended_advantage (log_lambda : ℝ)
    (reward_advantages cost_advantages : List ℝ)
    (hlen : reward_advantages.length = cost_advantages.length) :
    0 < lag_multiplier log_lambda ∧
    blended_advantages 0 reward_advantages cost_advantages = reward_advantages :=
  ⟨Real.exp_pos log_lambda,
    blended_advantages_zero reward_advantages cost_advantages hlen⟩

/-- Concrete instantiation of `C4_blended_advantage`. -/
theorem C4_blended_advantage_witness :
    (0 : ℝ) < lag_multiplier 0 ∧ blended_advantages 0 [1, 2] [3, 4] = [1, 2] :=
  C4_blended_advantage 0 [1, 2] [3, 4] rfl

/-- Modelled from the spec: `remove_pad_tokens` (imported from
`align_anything.utils.tools`, whose source is not under review) strips the
trailing pad tokens from a response ("trailing pad tokens are stripped to
obtain the true response length `R`"). -/
def remove_pad_tokens (pad_token_id : Int) (response : List Int) : List Int :=
  (response.reverse.dropWhile (fun t => t == pad_token_id)).reverse

/-- The response slice taken by `actor_step` (source lines 401-405):
`prompt_length = mini_prompt_only_batch['input_ids'][idx].size(-1) - 1`
followed by `response = sequences[idx].squeeze()[prompt_length:]`, so the
slice starts at index `prompt length - 1`, one position before the end of
the prompt. -/
def actor_response_slice (prompt_input_ids sequence : List Int) : List Int :=
  sequence.drop (prompt_input_ids.length - 1)

/-- The response length recorded by `actor_step` (source lines 406-407):
the length of the pad-stripped response slice. -/
def actor_response_len (pad_token_id : Int) (prompt_input_ids sequence : List Int) : Nat :=
  (remove_pad_tokens pad_token_id (actor_response_slice prompt_input_ids sequence)).length

lemma getLastD_cons_cons (a b : Int) (bs : List Int) :
    (a :: b :: bs).getLastD 0 = (b :: bs).getLastD 0 := by
  rw [List.getLastD_eq_getLast?, List.getLastD_eq_getLast?, List.getLast?_cons_cons]

lemma drop_length_sub_one : ∀ (l : List Int), l ≠ [] → l.drop (l.length - 1) = [l.getLastD 0] := by
  intro l
  induction l with
  | nil => intro h; exact absurd rfl h
  | cons a as ih =>
    intro h
    cases as with
    | nil => rfl
    | cons b bs =>
      have h1 : (a :: b :: bs).length - 1 = (b :: bs).length - 1 + 1 := by
        simp
      rw [getLastD_cons_cons, h1, List.drop_succ_cons]
      exact ih (by simp)

/-- C5 (amended): the slice used by `actor_step` for length derivation is
not the generated suffix after the prompt but the suffix starting at index
`prompt length - 1`: for a nonempty prompt it is the final prompt token
followed by the generated suffix, and the recorded response length is the
pad-stripped length of that one-token-longer slice. -/
theorem C5_response_slice (pad_token_id : Int) (prompt gen : List Int)
    (h : prompt ≠ []) :
    actor_response_slice prompt (prompt ++ gen) = prompt.getLastD 0 :: gen ∧
    actor_response_len pad_token_id prompt (prompt ++ gen) =
      (remove_pad_tokens pad_token_id (prompt.getLastD 0 :: gen)).length := by
  have hslice : actor_response_slice prompt (prompt ++ gen) = prompt.getLastD 0 :: gen := by
    rw [actor_response_slice, List.drop_append_of_le_length (Nat.sub_le _ _),
      drop_length_sub_one prompt h]
    rfl
  exact ⟨hslice, by rw [actor_response_len, hslice]⟩

/-- Counterexample to C5 as stated: for the prompt `[5, 6, 7]` and the
generated sequence `[5, 6, 7, 8, 9]` the slice used by `actor_step` is
`[7, 8, 9]`, not the generated suffix `[8, 9]` after the prompt, and the
derived response length is `3`, not `2`. -/
theorem C5_counterexample :
    actor_response_slice [5, 6, 7] [5, 6, 7, 8, 9] ≠
      List.drop ([5, 6, 7] : List Int).length [5, 6, 7, 8, 9] ∧
    actor_response_len 0 [5, 6, 7] [5, 6, 7, 8, 9] = 3 ∧
    (remove_pad_tokens 0 (List.drop ([5, 6, 7] : List Int).length [5, 6, 7, 8, 9])).length
      = 2 := by
  decide

/-- Concrete instantiation of `C5_response_slice`. -/
theorem C5_response_slice_witness :
    actor_response_slice [1, 2] ([1, 2] ++ [3]) = 2 :: [3] :=
  (C5_response_slice 0 [1, 2] [3] (by decide)).1

/-- Abstract tokenizer identities of the six models loaded by
`init_models_with_cost_model`; `is_same_tokenizer` (imported from
`align_anything.utils.tools`, whose source is not under review) is
modelled from the spec's tokenizer contract as agreement of the
identities, i.e. equality. -/
structure TrainerTokenizers where
  tokenizer : Nat
  reward_tokenizer : Nat
  cost_tokenizer : Nat
  reward_critic_tokenizer : Nat
  cost_critic_tokenizer : Nat
deriving DecidableEq

/-- Static text of the only tokenizer error raised by
`init_models_with_cost_model` (source lines 293-306); the source
interpolates the tokenizer types and vocab sizes into this message. -/
def reward_critic_mismatch_message : String :=
  "Reward critic tokenizer must be the same as actor tokenizer."

/-- Embedding of the tokenizer checking and aliasing at the end of
`init_models_with_cost_model` (source lines 291-311): if the cost
tokenizer matches the actor tokenizer, the *reward* tokenizer is aliased
to the actor tokenizer; a reward-critic tokenizer mismatch raises
`ValueError`; otherwise the reward-critic, cost and cost-critic
tokenizers are unconditionally overwritten with the actor tokenizer.  No
check of the cost or cost-critic tokenizer is performed. -/
def init_tokenizer_check (t : TrainerTokenizers) : Except String TrainerTokenizers :=
  let t1 := if t.tokenizer = t.cost_tokenizer then
      { t with reward_tokenizer := t.tokenizer } else t
  if t1.tokenizer ≠ t1.reward_critic_tokenizer then
    Except.error reward_critic_mismatch_message
  else
    Except.ok { t1 with reward_critic_tokenizer := t1.tokenizer,
                        cost_tokenizer := t1.tokenizer,
                        cost_critic_tokenizer := t1.tokenizer }

/-- C8 (amended): only a mismatch between the policy tokenizer and the
*reward-critic* tokenizer is a fatal configuration error (raised with a
message naming the reward critic); mismatches of the cost or cost-critic
tokenizer raise nothing — those tokenizers are silently overwritten with
the policy tokenizer. -/
theorem C8_tokenizer_check (t : TrainerTokenizers) :
    (t.tokenizer ≠ t.reward_critic_tokenizer →
      init_tokenizer_check t = Except.error reward_critic_mismatch_message) ∧
    (t.tokenizer = t.reward_critic_tokenizer →
      ∃ t2, init_tokenizer_check t = Except.ok t2 ∧
        t2.tokenizer = t.tokenizer ∧
        t2.reward_critic_tokenizer = t.tokenizer ∧
        t2.cost_tokenizer = t.tokenizer ∧
        t2.cost_critic_tokenizer = t.tokenizer) := by
  obtain ⟨a, rt, c, rc, cc⟩ := t
  constructor
  · intro hne
    simp only [init_tokenizer_check]
    by_cases hc : a = c
    · rw [if_pos hc]
      dsimp only
      rw [if_pos hne]
    · rw [if_neg hc]
      dsimp only
      rw [if_pos hne]
  · intro heq
    simp only [init_tokenizer_check]
    by_cases hc : a = c
    · refine ⟨⟨a, a, a, a, a⟩, ?_, rfl, rfl, rfl, rfl⟩
      rw [if_pos hc]
      dsimp only
      rw [if_neg (not_not_intro heq)]
    · refine ⟨⟨a, rt, a, a, a⟩, ?_, rfl, rfl, rfl, rfl⟩
      rw [if_neg hc]
      dsimp only
      rw [if_neg (not_not_intro heq)]

/-- Counterexample to C8 as stated: a configuration whose cost tokenizer
(id `1`) and cost-critic tokenizer (id `2`) both differ from the policy
tokenizer (id `0`) passes model initialization without any error. -/
theorem C8_counterexample :
    init_tokenizer_check ⟨0, 0, 1, 0, 2⟩ = Except.ok ⟨0, 0, 0, 0, 0⟩ ∧
    (⟨0, 0, 1, 0, 2⟩ : TrainerTokenizers).cost_tokenizer ≠
      (⟨0, 0, 1, 0, 2⟩ : TrainerTokenizers).tokenizer ∧
    (⟨0, 0, 1, 0, 2⟩ : TrainerTokenizers).cost_critic_tokenizer ≠
      (⟨0, 0, 1, 0, 2⟩ : TrainerTokenizers).tokenizer := by
  refine ⟨rfl, by decide, by decide⟩

/-- Concrete instantiation of `C8_tokenizer_check`: a reward-critic
tokenizer mismatch is raised with the descriptive message. -/
theorem C8_tokenizer_check_witness :
    init_tokenizer_check ⟨0, 0, 0, 1, 0⟩ =
      Except.error reward_critic_mismatch_message :=
  (C8_tokenizer_check ⟨0, 0, 0, 1, 0⟩).1 (by decide)

/-- The configured episode cost window size
(`args.episode_cost_window_size`, source line 103), used as the `maxlen`
of the `episode_costs` deque (source line 144). -/
def episode_cost_window_size : Nat := 128

/-- Embedding of `self.episode_costs.extend(cost_batch['cost'].tolist())`
(source line 429) on a `collections.deque(maxlen=maxlen)`: each batch cost
is appended on the right in order and, once the deque is full, the oldest
entries fall off the left, leaving the last `maxlen` entries of
`window ++ batch_costs`. -/
def deque_extend (maxlen : Nat) (window batch_costs : List ℚ) : List ℚ :=
  (window ++ batch_costs).drop ((window ++ batch_costs).length - maxlen)

/-- C9: the episode cost window is a bounded, order-preserving FIFO: after
extending with a batch it holds at most `maxlen` entries, exactly
`min (window.length + batch_costs.length) maxlen` of them, it is a
contiguous suffix (the most recent entries, in order) of the appended
stream, and while there is room it is exactly the appended stream. -/
theorem C9_cost_window (maxlen : Nat) (window batch_costs : List ℚ) :
    (deque_extend maxlen window batch_costs).length ≤ maxlen ∧
    (deque_extend maxlen window batch_costs).length =
      min (window.length + batch_costs.length) maxlen ∧
    (deque_extend maxlen window batch_costs) <:+ (window ++ batch_costs) ∧
    (window.length + batch_costs.length ≤ maxlen →
      deque_extend maxlen window batch_costs = window ++ batch_costs) := by
  refine ⟨?_, ?_, ?_, ?_⟩
  · simp only [deque_extend, List.length_drop, List.length_append]
    omega
  · simp only [deque_extend, List.length_drop, List.length_append]
    omega
  · exact List.drop_suffix _ _
  · intro hle
    have h0 : (window ++ batch_costs).length - maxlen = 0 := by
      simp only [List.length_append]
      omega
    rw [deque_extend, h0, List.drop_zero]

/-- Concrete instantiation of `C9_cost_window`: with room left in the
window, the batch costs are appended in order. -/
theorem C9_cost_window_witness :
    deque_extend episode_cost_window_size [1] [2, 3] = [1] ++ [2, 3] :=
  (C9_cost_window episode_cost_window_size [1] [2, 3]).2.2.2 (by decide)

/-- One pre-tokenized preference sample as stored by
`PreferenceDataset.pre_tokenize` / `PreferenceDataset_ours.pre_tokenize`
(`new_preference.py`): token ids of the better and worse sequences, the
two response lengths, and the per-sample image tensor, modelled as the
flat list of its patches (the dimension-4 `pixel_values` of shape
`(P_i, C, H, W)`, each patch abstracted to a rational). -/
structure PreferenceSampleE where
  better_input_ids : List Int
  worse_input_ids : List Int
  better_response_lens : Nat
  worse_response_lens : Nat
  pixel_values : List ℚ

/-- Placeholder sample used only as the out-of-range default of
`List.getD`. -/
def default_sample : PreferenceSampleE := ⟨[], [], 0, 0, []⟩

/-- `right_padding` from `align_anything.utils.tools`
(`torch.nn.utils.rnn.pad_sequence(..., batch_first=True)` semantics): each
row is padded on the right with `padding_value` up to the maximum row
length of the batch. -/
def right_padding (padding_value : Int) (seqs : List (List Int)) : List (List Int) :=
  let L := (seqs.map List.length).foldr max 0
  seqs.map (fun s => s ++ List.replicate (L - s.length) padding_value)

/-- The batch fields produced by the preference collators that the claim
is about. -/
structure PreferenceBatchE where
  input_ids : List (List Int)
  response_lens : List Nat
  image_sizes : List Nat
  pixel_values : List ℚ

/-- Embedding of `PreferenceCollator.__call__` (`new_preference.py` lines
186-240) and of the identical collation logic of
`PreferenceCollator_ours.__call__` (lines 374-430; `_ours` additionally
passes through the safety labels): `input_ids` is the list of better
sequences followed by the worse sequences, right-padded together;
`response_lens` is the better response lengths followed by the worse ones;
in the dimension-4 branch the per-sample patch tensors are concatenated
along the patch dimension and the result is concatenated with itself
(`torch.cat([pixel_values_tensor, pixel_values_tensor], dim=0)`), as are
the per-sample patch counts (`image_sizes`). -/
def preferenceCollate (pad_token_id : Int) (samples : List PreferenceSampleE) :
    PreferenceBatchE :=
  let input_ids := samples.map (fun s => s.better_input_ids) ++
    samples.map (fun s => s.worse_input_ids)
  let ori_patches := samples.map (fun s => s.pixel_values.length)
  let pixel_values_tensor := (samples.map (fun s => s.pixel_values)).flatten
  { input_ids := right_padding pad_token_id input_ids
    response_lens := samples.map (fun s => s.better_response_lens) ++
      samples.map (fun s => s.worse_response_lens)
    image_sizes := ori_patches ++ ori_patches
    pixel_values := pixel_values_tensor ++ pixel_values_tensor }

lemma getD_map_lt {α β : Type} (f : α → β) (da : α) (db : β) :
    ∀ (l : List α) (t : Nat), t < l.length → (l.map f).getD t db = f (l.getD t da) := by
  intro l
  induction l with
  | nil => intro t ht; simp at ht
  | cons x xs ih =>
    intro t ht
    cases t with
    | zero => rfl
    | succ n => simpa [List.getD_cons_succ] using ih n (by simpa using ht)

lemma right_padding_getD (pad : Int) (seqs : List (List Int)) (i : Nat)
    (h : i < seqs.length) :
    ∃ k, (right_padding pad seqs).getD i [] = seqs.getD i [] ++ List.replicate k pad := by
  refine ⟨(seqs.map List.length).foldr max 0 - (seqs.getD i []).length, ?_⟩
  simp only [right_padding]
  exact getD_map_lt _ [] [] seqs i h

/-- C10: for a non-empty sample list of size `B`, the collator batch has
`2 * B` input rows, row `i < B` being the better sequence of sample `i`
(right-padded) and row `B + i` the worse sequence of sample `i`
(right-padded); `response_lens` is the better response lengths followed by
the worse ones, sample order preserved; and `pixel_values` is the
concatenated per-sample image tensor concatenated with itself, so both
halves of the batch see identical images. -/
theorem C10_preference_collator (pad_token_id : Int)
    (samples : List PreferenceSampleE) (hne : samples ≠ []) :
    (preferenceCollate pad_token_id samples).input_ids.length = 2 * samples.length ∧
    (∀ i, i < samples.length →
      (∃ k, (preferenceCollate pad_token_id samples).input_ids.getD i [] =
        (samples.getD i default_sample).better_input_ids ++
          List.replicate k pad_token_id) ∧
      (∃ k, (preferenceCollate pad_token_id samples).input_ids.getD
          (samples.length + i) [] =
        (samples.getD i default_sample).worse_input_ids ++
          List.replicate k pad_token_id) ∧
      (preferenceCollate pad_token_id samples).response_lens.getD i 0 =
        (samples.getD i default_sample).better_response_lens ∧
      (preferenceCollate pad_token_id samples).response_lens.getD
          (samples.length + i) 0 =
        (samples.getD i default_sample).worse_response_lens) ∧
    (preferenceCollate pad_token_id samples).pixel_values =
      (samples.map (fun s => s.pixel_values)).flatten ++
        (samples.map (fun s => s.pixel_values)).flatten ∧
    (preferenceCollate pad_token_id samples).pixel_values.take
        ((samples.map (fun s => s.pixel_values)).flatten.length) =
      (preferenceCollate pad_token_id samples).pixel_values.drop
        ((samples.map (fun s => s.pixel_values)).flatten.length) := by
  have hinput : (preferenceCollate pad_token_id samples).input_ids =
      right_padding pad_token_id (samples.map (fun s => s.better_input_ids) ++
        samples.map (fun s => s.worse_input_ids)) := rfl
  have hlens : (preferenceCollate pad_token_id samples).response_lens =
      samples.map (fun s => s.better_response_lens) ++
        samples.map (fun s => s.worse_response_lens) := rfl
  have hpix : (preferenceCollate pad_token_id samples).pixel_values =
      (samples.map (fun s => s.pixel_values)).flatten ++
        (samples.map (fun s => s.pixel_values)).flatten := rfl
  refine ⟨?_, ?_, hpix, ?_⟩
  · rw [hinput]
    simp only [right_padding, List.length_map, List.length_append]
    omega
  · intro i hi
    have hiS : i < (samples.map (fun s => s.better_input_ids) ++
        samples.map (fun s => s.worse_input_ids)).length := by
      simp only [List.length_append, List.length_map]
      omega
    have hiS2 : samples.length + i < (samples.map (fun s => s.better_input_ids) ++
        samples.map (fun s => s.worse_input_ids)).length := by
      simp only [List.length_append, List.length_map]
      omega
    refine ⟨?_, ?_, ?_, ?_⟩
    · obtain ⟨k, hk⟩ := right_padding_getD pad_token_id
        (samples.map (fun s => s.better_input_ids) ++
          samples.map (fun s => s.worse_input_ids)) i hiS
      refine ⟨k, ?_⟩
      rw [hinput, hk,
        List.getD_append _ _ [] i (by simpa using hi),
        getD_map_lt (fun s => s.better_input_ids) default_sample [] samples i hi]
    · obtain ⟨k, hk⟩ := right_padding_getD pad_token_id
        (samples.map (fun s => s.better_input_ids) ++
          samples.map (fun s => s.worse_input_ids)) (samples.length + i) hiS2
      refine ⟨k, ?_⟩
      rw [hinput, hk,
        List.getD_append_right _ _ [] (samples.length + i) (by simp),
        List.length_map, Nat.add_sub_cancel_left,
        getD_map_lt (fun s => s.worse_input_ids) default_sample [] samples i hi]
    · rw [hlens,
        List.getD_append _ _ 0 i (by simpa using hi),
        getD_map_lt (fun s => s.better_response_lens) default_sample 0 samples i hi]
    · rw [hlens,
        List.getD_append_right _ _ 0 (samples.length + i) (by simp),
        List.length_map, Nat.add_sub_cancel_left,
        getD_map_lt (fun s => s.worse_response_lens) default_sample 0 samples i hi]
  · rw [hpix, List.take_left, List.drop_left]

/-- Concrete instantiation of `C10_preference_collator`: two samples with
response lengths `4, 9` (better) and `5, 10` (worse). -/
theorem C10_preference_collator_witness :
    (preferenceCollate 0 [⟨[1, 2], [3], 4, 5, [10]⟩,
        ⟨[6], [7, 8], 9, 10, [11, 12]⟩]).response_lens.getD 0 0 = 4 ∧
    (preferenceCollate 0 [⟨[1, 2], [3], 4, 5, [10]⟩,
        ⟨[6], [7, 8], 9, 10, [11, 12]⟩]).response_lens.getD 2 0 = 5 := by
  have h := C10_preference_collator 0
    [⟨[1, 2], [3], 4, 5, [10]⟩, ⟨[6], [7, 8], 9, 10, [11, 12]⟩]
    (List.cons_ne_nil _ _)
  exact ⟨(h.2.1 0 (by decide)).2.2.1, (h.2.1 0 (by decide)).2.2.2⟩

end AlignAnything
